import Mathlib

/-!
Shallow embedding of the response-shaping core of the movies web backend
(`server.go`, neo4j-go-driver v5 revision, which the spec designates as the
normative one).  The embedded pieces are:

  * the dynamically-typed result rows returned by the graph engine and the
    row-decoding helpers (`GetRecordValue`, `record.Get`, `toStringSlice`);
  * the three projection builders (search, movie detail, graph/D3) and the
    vote projection;
  * the handler control flow around the query result, including the fact
    that three of the four handlers dereference the query result before
    checking the query error;
  * `parseLimit` together with a model of Go's `strconv.Atoi`.

Machine integers are modelled as `Int` (the values that occur here are far
from the 64-bit boundary; `goAtoi` checks the int64 range explicitly, which
is the one place overflow matters).  A Go run-time panic (nil-pointer
dereference, failed type assertion) is modelled by `Option`/an explicit
`crash` outcome.
-/

namespace Movies

/-- Dynamically-typed value as returned by the graph engine in a result row
(the subset of dynamic types relevant to this backend: null, integers,
strings and lists). -/
inductive Value where
  | null
  | int (i : Int)
  | str (s : String)
  | list (vs : List Value)

/-- A result row: mapping from column name to dynamically-typed value
(`record.Get` looks a key up; first binding wins). -/
def Row := List (String × Value)

/-- Model of `record.Get(key)`: the value bound to `key`, if the column exists. -/
def rowGet (row : Row) (key : String) : Option Value :=
  (row.find? (fun kv => kv.1 == key)).map (·.2)

/-- Model of `neo4j.GetRecordValue[string](record, key)` with the error and isNil
results discarded, as every call site in `server.go` does (`title, _, _ :=`):
the string value when the column holds one, and the zero value `""` when the
column is absent, null, or holds a value of another type. -/
def getRecString (row : Row) (key : String) : String :=
  match rowGet row key with
  | some (.str s) => s
  | _ => ""

/-- Model of `neo4j.GetRecordValue[int64](record, key)`, flags discarded: the integer
value, or the zero value `0` when absent, null, or of another type. -/
def getRecInt (row : Row) (key : String) : Int :=
  match rowGet row key with
  | some (.int i) => i
  | _ => 0

/-- Model of `toStringSlice` from `server.go`: converts `[]interface{}` to `[]string`
by the unchecked assertion `e.(string)` on each element.  A non-string
element makes the assertion panic, modelled as `none`. -/
def toStringSlice : List Value → Option (List String)
  | [] => some []
  | .str s :: rest => (toStringSlice rest).map (fun r => s :: r)
  | _ :: _ => none

/-- Model of `Person` from `server.go`. -/
structure Person where
  job : String
  role : List String
  name : String
deriving Repr, DecidableEq

/-- Model of `Movie` from `server.go`; fields start at their Go zero values. -/
structure Movie where
  released : Int := 0
  title : String := ""
  tagline : String := ""
  votes : Int := 0
  cast : List Person := []
deriving Repr, DecidableEq

/-- Model of `MovieResult` from `server.go` (the `{movie: ...}` wrapper of the search
response). -/
structure MovieResult where
  movie : Movie
deriving Repr, DecidableEq

/-- Model of `VoteResult` from `server.go`. -/
structure VoteResult where
  updates : Int
deriving Repr, DecidableEq

/-- Model of `Node` from `server.go` (graph-visualization node). -/
structure Node where
  title : String
  label : String
deriving Repr, DecidableEq

/-- Model of `Link` from `server.go`.  Source and target are indices into the node
list; in every reachable state they are in bounds, so they are modelled as
`Nat`. -/
structure Link where
  source : Nat
  target : Nat
deriving Repr, DecidableEq

/-- Model of `D3Response` from `server.go`. -/
structure D3Response where
  nodes : List Node
  links : List Link
deriving Repr, DecidableEq

/-- One row of the graph query, already decoded: `m.title AS movie,
collect(a.name) AS cast`. -/
structure GraphRow where
  movie : String
  cast : List String
deriving Repr, DecidableEq

/-! ### Graph projection (`graphHandler`, server.go lines 195-216) -/

/-- The inner scan of `graphHandler`: `idx := -1; for i, node := range
d3Response.Nodes { if actor == node.Title && node.Label == "actor" { idx = i;
break } }`.  The `-1` sentinel is rendered as `none`. -/
def findActor (actor : String) : List Node → Option Nat
  | [] => none
  | n :: ns =>
    if actor = n.title ∧ n.label = "actor" then some 0
    else (findActor actor ns).map (· + 1)

/-- The body of the inner `for _, actor := range actors` loop of
`graphHandler`: link to the existing actor node if the scan found one,
otherwise append a new actor node and link to it. -/
def addActor (movIdx : Nat) (st : D3Response) (actor : String) : D3Response :=
  match findActor actor st.nodes with
  | some i => { st with links := st.links ++ [⟨i, movIdx⟩] }
  | none =>
    { nodes := st.nodes ++ [⟨actor, "actor"⟩]
      links := st.links ++ [⟨st.nodes.length, movIdx⟩] }

/-- The body of the outer `for _, record := range result.Records` loop of
`graphHandler`: append the movie node, remember its index (`movIdx :=
len(d3Response.Nodes) - 1`), then process the row's actors. -/
def addRow (st : D3Response) (row : GraphRow) : D3Response :=
  let nodes1 := st.nodes ++ [⟨row.movie, "movie"⟩]
  let movIdx := nodes1.length - 1
  row.cast.foldl (addActor movIdx) { st with nodes := nodes1 }

/-- The whole graph projection of `graphHandler`: fold the rows into an
initially empty `D3Response`. -/
def buildGraph (rows : List GraphRow) : D3Response :=
  rows.foldl addRow ⟨[], []⟩

/-! ### The spec's graph algorithm, transcribed from §4.5 of the spec
(pseudocode block), to be compared with `buildGraph`. -/

/-- Spec §4.5: "search nodes (current full list, including movies) for an
existing node with label \"actor\" and title == actorName" — an explicit
position-carrying search. -/
def specSearch (actorName : String) : List Node → Nat → Option Nat
  | [], _ => none
  | node :: rest, i =>
    if node.label = "actor" ∧ node.title = actorName then some i
    else specSearch actorName rest (i + 1)

/-- Spec §4.5: the search started at position 0. -/
def specFindIdx (nodes : List Node) (actorName : String) : Option Nat :=
  specSearch actorName nodes 0

/-- Spec §4.5 inner loop: "for each actorName in actorNames, in given
order: ... if found at position i: append GraphLink{source: i, target:
movieIndex} to links; else: append GraphNode{title: actorName, label:
\"actor\"} to nodes; append GraphLink{source: index of new node, target:
movieIndex} to links". -/
def specActorLoop (movieIndex : Nat) :
    List String → List Node → List Link → List Node × List Link
  | [], nodes, links => (nodes, links)
  | actorName :: rest, nodes, links =>
    match specFindIdx nodes actorName with
    | some i => specActorLoop movieIndex rest nodes (links ++ [⟨i, movieIndex⟩])
    | none =>
      specActorLoop movieIndex rest (nodes ++ [⟨actorName, "actor"⟩])
        (links ++ [⟨nodes.length, movieIndex⟩])

/-- Spec §4.5 outer loop: "for each row (movieTitle, actorNames) in input,
in row order: append GraphNode{title: movieTitle, label: \"movie\"} to
nodes; movieIndex := index of the just-appended node; ...". -/
def specRowLoop : List GraphRow → List Node → List Link → List Node × List Link
  | [], nodes, links => (nodes, links)
  | row :: rest, nodes, links =>
    let nodes1 := nodes ++ [⟨row.movie, "movie"⟩]
    let movieIndex := nodes1.length - 1
    let nl := specActorLoop movieIndex row.cast nodes1 links
    specRowLoop rest nl.1 nl.2

/-- Spec §4.5: the whole algorithm starting from empty node and link
sequences. -/
def specBuildGraph (rows : List GraphRow) : D3Response :=
  let nl := specRowLoop rows [] []
  ⟨nl.1, nl.2⟩

/-! ### Observations on a built `D3Response`, used to state the claims -/

/-- The title sequence of the actor-labelled nodes, in order. -/
def actorTitles (nodes : List Node) : List String :=
  (nodes.filter (fun n => n.label == "actor")).map Node.title

/-- The node is the actor node for `name`. -/
def isActorNamed (name : String) (n : Node) : Bool :=
  n.title == name && n.label == "actor"

/-- The link's source index resolves, in the given node list, to the actor
node for `name`. -/
def srcIsActor (nodes : List Node) (name : String) (l : Link) : Bool :=
  (nodes[l.source]?).any (isActorNamed name)

/-- The links of a response whose source is (the index of) the actor node
for `name`. -/
def actorLinks (st : D3Response) (name : String) : List Link :=
  st.links.filter (srcIsActor st.nodes name)

/-- Every link of the response resolves to a movie-labelled target node and
an actor-labelled source node. -/
def linksWF (st : D3Response) : Prop :=
  ∀ l ∈ st.links,
    st.nodes[l.target]?.map Node.label = some "movie" ∧
    st.nodes[l.source]?.map Node.label = some "actor"

/-- First-occurrence deduplication of a name stream against an already-seen
list: the accumulated actor-title list of the graph projection. -/
def dedupAppend (seen : List String) : List String → List String
  | [] => seen
  | a :: rest =>
    if a ∈ seen then dedupAppend seen rest
    else dedupAppend (seen ++ [a]) rest

/-- For each occurrence of `name` in a row's cast, the index of the movie
node of that row (which is the node count at the moment the row starts). -/
def rowTargets (st : D3Response) (name : String) : List GraphRow → List Nat
  | [] => []
  | r :: rest =>
    List.replicate (r.cast.count name) st.nodes.length ++
      rowTargets (addRow st r) name rest

/-- The two-row example from the spec (§8). -/
def exampleRows : List GraphRow :=
  [⟨"Top Gun", ["Tom Cruise"]⟩, ⟨"Days of Thunder", ["Tom Cruise"]⟩]

/-- The sentinel row of a zero-cast movie detail query: the title column is
present, the person columns are null (the OPTIONAL MATCH found nobody). -/
def sentinelRow : Row :=
  [("title", Value.str "Apollo 13"), ("name", Value.null),
   ("job", Value.null), ("role", Value.null)]

/-- A detail row whose role column holds a list containing a non-string
element. -/
def badRoleRow : Row :=
  [("title", Value.str "X"), ("name", Value.str "A"),
   ("job", Value.str "acted"), ("role", Value.list [Value.int 0])]

/-! ### Detail projection (`movieHandlerFunc`, server.go lines 133-146) -/

/-- One iteration of the `for _, record := range result.Records` loop in
`movieHandlerFunc`: set the title from the row, then append one `Person`;
when the role column holds a list, it goes through `toStringSlice` (which
can panic, hence `Option`); any other role value takes the `default` branch
and yields a `Person` without role data. -/
def movieRowStep (m : Movie) (record : Row) : Option Movie :=
  let title := getRecString record "title"
  let name := getRecString record "name"
  let job := getRecString record "job"
  match rowGet record "role" with
  | some (.list vs) =>
    (toStringSlice vs).map fun roles =>
      { m with title := title, cast := m.cast ++ [⟨job, roles, name⟩] }
  | _ => some { m with title := title, cast := m.cast ++ [⟨job, [], name⟩] }

/-- The whole detail projection: fold the rows into `var movie Movie` (all
fields at zero values); `none` when some row panics in `toStringSlice`. -/
def buildMovieDetail (records : List Row) : Option Movie :=
  records.foldlM movieRowStep {}

/-! ### Search projection (`searchHandlerFunc`, server.go lines 97-104) -/

/-- Model of `movies := make([]MovieResult, len(result.Records))` filled one result
per record, in order, from the four decoded columns. -/
def buildSearch (records : List Row) : List MovieResult :=
  records.map fun record =>
    ⟨{ released := getRecInt record "released"
       title := getRecString record "title"
       tagline := getRecString record "tagline"
       votes := getRecInt record "votes" }⟩

/-! ### Handler control flow around the query result -/

/-- What a handler invocation does to the HTTP exchange: crash with a Go
run-time panic, log the query error and return without writing a body, or
write a JSON body. -/
inductive HandlerOutcome (β : Type) where
  | crash
  | errorLogged
  | body (b : β)
deriving Repr, DecidableEq

/-- The mutation summary of the vote query (`result.Summary.Counters().
PropertiesSet()`). -/
structure Summary where
  propertiesSet : Int
deriving Repr, DecidableEq

/-- Model of `searchHandlerFunc`: checks `err` right after `ExecuteQuery` (line 92),
logging and returning on failure, and otherwise builds and writes the
search response. -/
def searchHandlerFunc (q : Except String (List Row)) :
    HandlerOutcome (List MovieResult) :=
  match q with
  | .error _ => .errorLogged
  | .ok records => .body (buildSearch records)

/-- Model of `movieHandlerFunc`: ranges over `result.Records` (line 134) BEFORE the
`err != nil` check (line 147).  On query failure `ExecuteQuery` returns a
nil `*EagerResult`, so `result.Records` is a nil-pointer dereference: the
handler crashes before it can log.  On success it builds the detail (which
itself can panic in `toStringSlice`) and writes it. -/
def movieHandlerFunc (q : Except String (List Row)) : HandlerOutcome Movie :=
  match q with
  | .error _ => .crash
  | .ok records =>
    match buildMovieDetail records with
    | none => .crash
    | some m => .body m

/-- Model of `voteInMovieHandlerFunc`: reads `result.Summary.Counters().
PropertiesSet()` (line 170) BEFORE the `err != nil` check (line 172); on
query failure `result` is nil and the handler crashes.  On success it
writes `VoteResult` with the reported counter, whatever it is. -/
def voteInMovieHandlerFunc (q : Except String Summary) : HandlerOutcome VoteResult :=
  match q with
  | .error _ => .crash
  | .ok s => .body ⟨s.propertiesSet⟩

/-- Model of `graphHandler`: ranges over `result.Records` (line 196) BEFORE the
`err != nil` check (line 217); on query failure `result` is nil and the
handler crashes.  On success it builds and writes the D3 response. -/
def graphHandlerFunc (q : Except String (List GraphRow)) : HandlerOutcome D3Response :=
  match q with
  | .error _ => .crash
  | .ok rows => .body (buildGraph rows)

/-! ### `parseLimit` (server.go lines 260-270) and Go's `strconv.Atoi` -/

/-- Numeric value of a digit string (most significant first). -/
def digitsVal (ds : List Char) : Nat :=
  ds.foldl (fun acc c => acc * 10 + (c.toNat - '0'.toNat)) 0

/-- Model of `strconv.Atoi`: an optional sign followed by at least one decimal
digit, value within the int64 range; anything else (empty, stray
characters, out of range) is an error, modelled as `none`.  (On a range
error Go returns a clamped value together with a non-nil error; every
caller here only looks at the error.) -/
def goAtoi (s : String) : Option Int :=
  let signAndDigits : Bool × List Char :=
    match s.toList with
    | '+' :: rest => (false, rest)
    | '-' :: rest => (true, rest)
    | cs => (false, cs)
  let neg := signAndDigits.1
  let ds := signAndDigits.2
  if ds.isEmpty then none
  else if !ds.all (fun c => '0' ≤ c && c ≤ '9') then none
  else
    let v : Int := if neg then -(digitsVal ds : Int) else (digitsVal ds : Int)
    if v < -(2 ^ 63) ∨ 2 ^ 63 ≤ v then none else some v

/-- Model of `parseLimit`: `req.URL.Query()["limit"]` is the list of values given
for the `limit` parameter; the limit starts at 50, and when at least one
value is present the first is parsed with `strconv.Atoi`, falling back to
50 on a parse error. -/
def parseLimit (limits : List String) : Int :=
  match limits with
  | [] => 50
  | l :: _ =>
    match goAtoi l with
    | some n => n
    | none => 50

/-! ### Basic facts about the node scan -/

/-- A `Node` is determined by its two fields. -/
theorem node_eq_mk {n : Node} {t lb : String} :
    n = Node.mk t lb ↔ n.title = t ∧ n.label = lb := by
  cases n
  simp [Node.mk.injEq]

/-- A successful scan returns the index of a node that is exactly the actor
node for the scanned name (a `Node` has no fields besides title and label). -/
theorem findActor_eq_some {a : String} {ns : List Node} {i : Nat}
    (h : findActor a ns = some i) : ns[i]? = some ⟨a, "actor"⟩ := by
  induction ns generalizing i with
  | nil => simp [findActor] at h
  | cons n ns ih =>
    rw [findActor] at h
    split at h
    · rename_i hn
      obtain rfl : (0 : Nat) = i := Option.some.inj h
      have : n = Node.mk a "actor" := node_eq_mk.mpr ⟨hn.1.symm, hn.2⟩
      simp [this]
    · obtain ⟨j, hj, rfl⟩ := Option.map_eq_some.mp h
      simpa using ih hj

/-- The scan fails exactly when no node in the list is the actor node for
the scanned name. -/
theorem findActor_eq_none {a : String} {ns : List Node} :
    findActor a ns = none ↔ Node.mk a "actor" ∉ ns := by
  induction ns with
  | nil => simp [findActor]
  | cons n ns ih =>
    rw [findActor]
    by_cases hn : a = n.title ∧ n.label = "actor"
    · have hn' : n = Node.mk a "actor" := node_eq_mk.mpr ⟨hn.1.symm, hn.2⟩
      rw [if_pos hn]
      constructor
      · intro h
        cases h
      · intro hmem
        exact absurd (hn' ▸ List.mem_cons_self n ns) hmem
    · have hne : Node.mk a "actor" ≠ n := by
        intro he
        exact hn ⟨(node_eq_mk.mp he.symm).1.symm, (node_eq_mk.mp he.symm).2⟩
      simp [hn, Option.map_eq_none, ih, List.mem_cons, hne]

/-- Membership of the full actor node and membership of its title in
`actorTitles` coincide. -/
theorem mem_actorTitles_iff {a : String} {ns : List Node} :
    a ∈ actorTitles ns ↔ Node.mk a "actor" ∈ ns := by
  rw [actorTitles]
  simp only [List.mem_map, List.mem_filter, beq_iff_eq]
  constructor
  · rintro ⟨n, ⟨hmem, hl⟩, ht⟩
    have : n = Node.mk a "actor" := node_eq_mk.mpr ⟨ht, hl⟩
    rwa [this] at hmem
  · intro h
    exact ⟨Node.mk a "actor", ⟨h, rfl⟩, rfl⟩

/-- The scan fails exactly when the name is not among the actor titles. -/
theorem findActor_none_iff {a : String} {ns : List Node} :
    findActor a ns = none ↔ a ∉ actorTitles ns := by
  rw [findActor_eq_none, mem_actorTitles_iff]

/-! ### C1: the graph projection agrees with the spec's algorithm -/

/-- Lemma: `specFindIdx` agrees with the code's scan (shifted by the running
index). -/
theorem specSearch_eq {a : String} {ns : List Node} {i : Nat} :
    specSearch a ns i = (findActor a ns).map (· + i) := by
  induction ns generalizing i with
  | nil => simp [specSearch, findActor]
  | cons n ns ih =>
    rw [specSearch, findActor]
    by_cases h : n.label = "actor" ∧ n.title = a
    · simp [h, h.1, h.2]
    · have h' : ¬(a = n.title ∧ n.label = "actor") := by tauto
      rw [if_neg h, if_neg h', ih, Option.map_map]
      rcases findActor a ns with _ | j
      · rfl
      · simp [Function.comp, Nat.add_assoc, Nat.add_comm 1 i]

/-- The spec's node search equals the code's scan. -/
theorem specFindIdx_eq (ns : List Node) (a : String) :
    specFindIdx ns a = findActor a ns := by
  rw [specFindIdx, specSearch_eq]
  rcases findActor a ns with _ | j <;> rfl

/-- The spec's inner actor loop is the fold of `addActor`. -/
theorem specActorLoop_eq (movIdx : Nat) (cast : List String)
    (nodes : List Node) (links : List Link) :
    specActorLoop movIdx cast nodes links =
      ((cast.foldl (addActor movIdx) ⟨nodes, links⟩).nodes,
       (cast.foldl (addActor movIdx) ⟨nodes, links⟩).links) := by
  induction cast generalizing nodes links with
  | nil => simp [specActorLoop]
  | cons a rest ih =>
    rw [specActorLoop, specFindIdx_eq, List.foldl_cons, addActor]
    rcases h : findActor a nodes with _ | i <;> simp [h, ih]

/-- The spec's outer row loop is the fold of `addRow`. -/
theorem specRowLoop_eq (rows : List GraphRow) (nodes : List Node) (links : List Link) :
    specRowLoop rows nodes links =
      ((rows.foldl addRow ⟨nodes, links⟩).nodes,
       (rows.foldl addRow ⟨nodes, links⟩).links) := by
  induction rows generalizing nodes links with
  | nil => simp [specRowLoop]
  | cons r rest ih =>
    rw [specRowLoop, List.foldl_cons, addRow]
    simp only [specActorLoop_eq, ih]

/-! ### Nodes only grow, and links stay resolvable (towards C2) -/

/-- Indexing below the length of the left part ignores an appended tail. -/
theorem getElem?_append_of_lt {α : Type} {l l' : List α} {i : Nat}
    (h : i < l.length) : (l ++ l')[i]? = l[i]? := by
  rw [List.getElem?_append]
  simp [h]

/-- A resolvable index is in bounds. -/
theorem lt_of_map_label_eq_some {ns : List Node} {i : Nat} {lb : String}
    (h : ns[i]?.map Node.label = some lb) : i < ns.length := by
  rcases ho : ns[i]? with _ | n
  · rw [ho] at h
    cases h
  · exact (List.getElem?_eq_some.mp ho).1

/-- Lemma: `addActor` only appends to the node list. -/
theorem addActor_nodes_extend (movIdx : Nat) (st : D3Response) (a : String) :
    ∃ ext, (addActor movIdx st a).nodes = st.nodes ++ ext := by
  rcases h : findActor a st.nodes with _ | i
  · exact ⟨[⟨a, "actor"⟩], by simp [addActor, h]⟩
  · exact ⟨[], by simp [addActor, h]⟩

/-- The inner actor loop only appends to the node list. -/
theorem actorLoop_nodes_extend (movIdx : Nat) (cast : List String) (st : D3Response) :
    ∃ ext, (cast.foldl (addActor movIdx) st).nodes = st.nodes ++ ext := by
  induction cast generalizing st with
  | nil => exact ⟨[], by simp⟩
  | cons a rest ih =>
    obtain ⟨e1, h1⟩ := addActor_nodes_extend movIdx st a
    obtain ⟨e2, h2⟩ := ih (addActor movIdx st a)
    exact ⟨e1 ++ e2, by rw [List.foldl_cons, h2, h1, List.append_assoc]⟩

/-- Lemma: `addRow` only appends to the node list. -/
theorem addRow_nodes_extend (st : D3Response) (r : GraphRow) :
    ∃ ext, (addRow st r).nodes = st.nodes ++ ext := by
  obtain ⟨e, he⟩ := actorLoop_nodes_extend ((st.nodes ++ [Node.mk r.movie "movie"]).length - 1)
    r.cast { st with nodes := st.nodes ++ [Node.mk r.movie "movie"] }
  exact ⟨Node.mk r.movie "movie" :: e, by rw [addRow, he]; simp⟩

/-- The whole row fold only appends to the node list. -/
theorem rowLoop_nodes_extend (rows : List GraphRow) (st : D3Response) :
    ∃ ext, (rows.foldl addRow st).nodes = st.nodes ++ ext := by
  induction rows generalizing st with
  | nil => exact ⟨[], by simp⟩
  | cons r rest ih =>
    obtain ⟨e1, h1⟩ := addRow_nodes_extend st r
    obtain ⟨e2, h2⟩ := ih (addRow st r)
    exact ⟨e1 ++ e2, by rw [List.foldl_cons, h2, h1, List.append_assoc]⟩

/-- One `addActor` step preserves resolvability of all links, given that the
movie index resolves to a movie node. -/
theorem linksWF_addActor {st : D3Response} {movIdx : Nat} {a : String}
    (hwf : linksWF st) (hmov : st.nodes[movIdx]?.map Node.label = some "movie") :
    linksWF (addActor movIdx st a) := by
  intro l hl
  rcases h : findActor a st.nodes with _ | i
  · rw [addActor, h] at hl
    simp only [List.mem_append, List.mem_singleton] at hl
    rw [addActor, h]
    rcases hl with hold | rfl
    · obtain ⟨ht, hs⟩ := hwf l hold
      constructor
      · rw [getElem?_append_of_lt (lt_of_map_label_eq_some ht)]
        exact ht
      · rw [getElem?_append_of_lt (lt_of_map_label_eq_some hs)]
        exact hs
    · constructor
      · rw [getElem?_append_of_lt (lt_of_map_label_eq_some hmov)]
        exact hmov
      · simp [List.getElem?_concat_length]
  · rw [addActor, h] at hl
    simp only [List.mem_append, List.mem_singleton] at hl
    rw [addActor, h]
    rcases hl with hold | rfl
    · exact hwf l hold
    · exact ⟨hmov, by rw [findActor_eq_some h]; rfl⟩

/-- The inner actor loop preserves resolvability of all links. -/
theorem linksWF_actorLoop {st : D3Response} {movIdx : Nat} (cast : List String)
    (hwf : linksWF st) (hmov : st.nodes[movIdx]?.map Node.label = some "movie") :
    linksWF (cast.foldl (addActor movIdx) st) := by
  induction cast generalizing st with
  | nil => exact hwf
  | cons a rest ih =>
    rw [List.foldl_cons]
    refine ih (linksWF_addActor hwf hmov) ?_
    obtain ⟨e, he⟩ := addActor_nodes_extend movIdx st a
    rw [he, getElem?_append_of_lt (lt_of_map_label_eq_some hmov)]
    exact hmov

/-- Lemma: `addRow` preserves resolvability of all links. -/
theorem linksWF_addRow {st : D3Response} (r : GraphRow) (hwf : linksWF st) :
    linksWF (addRow st r) := by
  rw [addRow]
  have hlen : (st.nodes ++ [Node.mk r.movie "movie"]).length - 1 = st.nodes.length := by
    simp
  rw [hlen]
  refine linksWF_actorLoop r.cast ?_ ?_
  · intro l hl
    obtain ⟨ht, hs⟩ := hwf l hl
    constructor
    · rw [getElem?_append_of_lt (lt_of_map_label_eq_some ht)]
      exact ht
    · rw [getElem?_append_of_lt (lt_of_map_label_eq_some hs)]
      exact hs
  · simp [List.getElem?_concat_length]

/-- The row fold preserves resolvability of all links. -/
theorem linksWF_rowLoop {st : D3Response} (rows : List GraphRow) (hwf : linksWF st) :
    linksWF (rows.foldl addRow st) := by
  induction rows generalizing st with
  | nil => exact hwf
  | cons r rest ih =>
    rw [List.foldl_cons]
    exact ih (linksWF_addRow r hwf)

/-! ### Counting nodes and links (towards C3) -/

/-- Lemma: `actorTitles` distributes over list append. -/
theorem actorTitles_append (l l' : List Node) :
    actorTitles (l ++ l') = actorTitles l ++ actorTitles l' := by
  simp [actorTitles, List.filter_append]

/-- Appending a movie-labelled node leaves `actorTitles` unchanged. -/
theorem actorTitles_append_movie (l : List Node) (t : String) :
    actorTitles (l ++ [Node.mk t "movie"]) = actorTitles l := by
  rw [actorTitles_append]
  simp [actorTitles]

/-- Appending an actor-labelled node appends its title to `actorTitles`. -/
theorem actorTitles_append_actor (l : List Node) (t : String) :
    actorTitles (l ++ [Node.mk t "actor"]) = actorTitles l ++ [t] := by
  rw [actorTitles_append]
  simp [actorTitles]

/-- The movie-node count is untouched by `addActor`. -/
theorem addActor_movieCount (movIdx : Nat) (st : D3Response) (a : String) :
    (addActor movIdx st a).nodes.countP (fun n => n.label == "movie") =
      st.nodes.countP (fun n => n.label == "movie") := by
  rcases h : findActor a st.nodes with _ | i
  · simp [addActor, h, List.countP_append]
  · simp [addActor, h]

/-- Lemma: `addActor` adds exactly one link. -/
theorem addActor_linkCount (movIdx : Nat) (st : D3Response) (a : String) :
    (addActor movIdx st a).links.length = st.links.length + 1 := by
  rcases h : findActor a st.nodes with _ | i
  · simp [addActor, h]
  · simp [addActor, h]

/-- Lemma: `addActor` deduplicates the actor-title list: an already-present title
is left alone, a new one is appended. -/
theorem addActor_actorTitles (movIdx : Nat) (st : D3Response) (a : String) :
    actorTitles (addActor movIdx st a).nodes =
      if a ∈ actorTitles st.nodes then actorTitles st.nodes
      else actorTitles st.nodes ++ [a] := by
  rcases h : findActor a st.nodes with _ | i
  · rw [if_neg (findActor_none_iff.mp h)]
    simp [addActor, h, actorTitles_append_actor]
  · have hmem : a ∈ actorTitles st.nodes := by
      by_contra hne
      rw [← findActor_none_iff] at hne
      rw [h] at hne
      cases hne
    rw [if_pos hmem]
    simp [addActor, h]

/-- The inner actor loop: movie count fixed, one link per cast member, and
actor titles evolve by first-occurrence deduplication. -/
theorem actorLoop_counts (movIdx : Nat) (cast : List String) (st : D3Response) :
    (cast.foldl (addActor movIdx) st).nodes.countP (fun n => n.label == "movie") =
        st.nodes.countP (fun n => n.label == "movie") ∧
      (cast.foldl (addActor movIdx) st).links.length = st.links.length + cast.length ∧
      actorTitles (cast.foldl (addActor movIdx) st).nodes =
        dedupAppend (actorTitles st.nodes) cast := by
  induction cast generalizing st with
  | nil => simp [dedupAppend]
  | cons a rest ih =>
    obtain ⟨ihm, ihl, iht⟩ := ih (addActor movIdx st a)
    refine ⟨?_, ?_, ?_⟩
    · rw [List.foldl_cons, ihm, addActor_movieCount]
    · rw [List.foldl_cons, ihl, addActor_linkCount, List.length_cons]
      omega
    · rw [List.foldl_cons, iht, addActor_actorTitles, dedupAppend]
      by_cases hmem : a ∈ actorTitles st.nodes
      · rw [if_pos hmem, if_pos hmem]
      · rw [if_neg hmem, if_neg hmem]

/-- Lemma: `addRow`: one more movie node, one link per cast member, actor titles
deduplicated against the row's cast. -/
theorem addRow_counts (st : D3Response) (r : GraphRow) :
    (addRow st r).nodes.countP (fun n => n.label == "movie") =
        st.nodes.countP (fun n => n.label == "movie") + 1 ∧
      (addRow st r).links.length = st.links.length + r.cast.length ∧
      actorTitles (addRow st r).nodes = dedupAppend (actorTitles st.nodes) r.cast := by
  rw [addRow]
  obtain ⟨hm, hl, ht⟩ := actorLoop_counts ((st.nodes ++ [Node.mk r.movie "movie"]).length - 1)
    r.cast { st with nodes := st.nodes ++ [Node.mk r.movie "movie"] }
  refine ⟨?_, hl, ?_⟩
  · rw [hm]
    simp [List.countP_append]
  · rw [ht]
    simp [actorTitles_append_movie]

/-- Lemma: `dedupAppend` processes a concatenated stream in two stages. -/
theorem dedupAppend_append (seen : List String) (xs ys : List String) :
    dedupAppend seen (xs ++ ys) = dedupAppend (dedupAppend seen xs) ys := by
  induction xs generalizing seen with
  | nil => simp [dedupAppend]
  | cons a rest ih =>
    rw [List.cons_append, dedupAppend, dedupAppend]
    by_cases hmem : a ∈ seen
    · rw [if_pos hmem, if_pos hmem, ih]
    · rw [if_neg hmem, if_neg hmem, ih]

/-- The row fold: movie count grows by the row count, link count by the
total cast size, actor titles by dedup of the concatenated casts. -/
theorem rowLoop_counts (rows : List GraphRow) (st : D3Response) :
    (rows.foldl addRow st).nodes.countP (fun n => n.label == "movie") =
        st.nodes.countP (fun n => n.label == "movie") + rows.length ∧
      (rows.foldl addRow st).links.length =
        st.links.length + (rows.map (fun r => r.cast.length)).sum ∧
      actorTitles (rows.foldl addRow st).nodes =
        dedupAppend (actorTitles st.nodes) (rows.flatMap GraphRow.cast) := by
  induction rows generalizing st with
  | nil => simp [dedupAppend]
  | cons r rest ih =>
    obtain ⟨ihm, ihl, iht⟩ := ih (addRow st r)
    obtain ⟨hm, hl, ht⟩ := addRow_counts st r
    refine ⟨?_, ?_, ?_⟩
    · rw [List.foldl_cons, ihm, hm, List.length_cons]
      omega
    · rw [List.foldl_cons, ihl, hl, List.map_cons, List.sum_cons]
      omega
    · rw [List.foldl_cons, iht, ht, List.flatMap_cons, dedupAppend_append]

/-- Lemma: `dedupAppend` keeps the seen-list duplicate-free. -/
theorem dedupAppend_nodup {seen : List String} (xs : List String)
    (h : seen.Nodup) : (dedupAppend seen xs).Nodup := by
  induction xs generalizing seen with
  | nil => exact h
  | cons a rest ih =>
    rw [dedupAppend]
    by_cases hmem : a ∈ seen
    · rw [if_pos hmem]
      exact ih h
    · rw [if_neg hmem]
      refine ih ?_
      simp [List.nodup_append, h, hmem]

/-- The members collected by `dedupAppend` are the seen ones plus the
stream's. -/
theorem dedupAppend_toFinset (seen : List String) (xs : List String) :
    (dedupAppend seen xs).toFinset = seen.toFinset ∪ xs.toFinset := by
  induction xs generalizing seen with
  | nil => simp [dedupAppend]
  | cons a rest ih =>
    rw [dedupAppend]
    by_cases hmem : a ∈ seen
    · rw [if_pos hmem, ih]
      ext x
      simp only [Finset.mem_union, List.mem_toFinset, List.mem_cons]
      constructor
      · rintro (h | h)
        · exact Or.inl h
        · exact Or.inr (Or.inr h)
      · rintro (h | h | h)
        · exact Or.inl h
        · exact Or.inl (h ▸ hmem)
        · exact Or.inr h
    · rw [if_neg hmem, ih]
      ext x
      simp only [Finset.mem_union, List.mem_toFinset, List.mem_append,
        List.mem_singleton, List.mem_cons]
      tauto

/-- The actor-node count of a node list is the length of its actor-title
list. -/
theorem countP_actor_eq (ns : List Node) :
    ns.countP (fun n => n.label == "actor") = (actorTitles ns).length := by
  rw [actorTitles, List.length_map, List.countP_eq_length_filter]

/-! ### Claim C1 -/

/-- C1: for every ordered sequence of graph rows, the graph projection of
`graphHandler` produces exactly the node and link sequences of the spec's
algorithm (append a movie node per row; per actor, scan the full current
node list for an actor-labelled node of equal title, linking to it when
found and appending a fresh actor node plus link otherwise); in particular
the two-row Top Gun / Days of Thunder example yields the spec's nodes and
links. -/
theorem graph_projection_matches_spec :
    (∀ rows : List GraphRow, buildGraph rows = specBuildGraph rows) ∧
      buildGraph exampleRows =
        ⟨[⟨"Top Gun", "movie"⟩, ⟨"Tom Cruise", "actor"⟩, ⟨"Days of Thunder", "movie"⟩],
         [⟨1, 0⟩, ⟨1, 2⟩]⟩ := by
  constructor
  · intro rows
    rw [buildGraph, specBuildGraph, specRowLoop_eq]
  · rfl

/-! ### Claim C2 -/

/-- C2: in the response built by the graph projection, every link's target
index refers to a node labelled "movie" and every link's source index to a
node labelled "actor" — the scan only matches actor-labelled nodes, so a
movie node is never linked as source even when an actor name equals a movie
title. -/
theorem graph_links_source_actor_target_movie :
    ∀ (rows : List GraphRow) (l : Link), l ∈ (buildGraph rows).links →
      (buildGraph rows).nodes[l.target]?.map Node.label = some "movie" ∧
      (buildGraph rows).nodes[l.source]?.map Node.label = some "actor" := by
  intro rows l hl
  have hwf : linksWF (buildGraph rows) :=
    linksWF_rowLoop rows (fun _ h => absurd h (List.not_mem_nil _))
  exact hwf l hl

/-- Witness for C2: the first link of the spec's two-row example resolves
to the Top Gun movie node and the Tom Cruise actor node. -/
theorem graph_links_source_actor_target_movie_witness :
    Link.mk 1 0 ∈ (buildGraph exampleRows).links ∧
      ((buildGraph exampleRows).nodes[(Link.mk 1 0).target]?.map Node.label = some "movie" ∧
       (buildGraph exampleRows).nodes[(Link.mk 1 0).source]?.map Node.label = some "actor") :=
  ⟨by decide, graph_links_source_actor_target_movie exampleRows ⟨1, 0⟩ (by decide)⟩

/-! ### Claim C3 -/

/-- C3: the graph projection yields exactly one movie node per input row
(never deduplicated), exactly one actor node per distinct actor name across
all rows, and exactly one link per actor occurrence (so the link count is
the total cast size). -/
theorem graph_projection_counts (rows : List GraphRow) :
    (buildGraph rows).nodes.countP (fun n => n.label == "movie") = rows.length ∧
      (buildGraph rows).nodes.countP (fun n => n.label == "actor") =
        (rows.flatMap GraphRow.cast).toFinset.card ∧
      (buildGraph rows).links.length = (rows.map (fun r => r.cast.length)).sum := by
  obtain ⟨hm, hl, ht⟩ := rowLoop_counts rows ⟨[], []⟩
  refine ⟨by simpa [buildGraph] using hm, ?_, by simpa [buildGraph] using hl⟩
  rw [buildGraph, countP_actor_eq, ht]
  have h0 : actorTitles (D3Response.mk [] []).nodes = [] := rfl
  rw [h0]
  have hnd : (dedupAppend [] (rows.flatMap GraphRow.cast)).Nodup :=
    dedupAppend_nodup _ List.nodup_nil
  rw [← List.toFinset_card_of_nodup hnd, dedupAppend_toFinset]
  simp

/-! ### Tracking the links of one actor (towards C4 and C10) -/

/-- Resolution of a bounded source index ignores appended nodes. -/
theorem srcIsActor_stable {nodes ext : List Node} {name : String} {l : Link}
    (h : l.source < nodes.length) :
    srcIsActor (nodes ++ ext) name l = srcIsActor nodes name l := by
  rw [srcIsActor, srcIsActor, getElem?_append_of_lt h]

/-- In a resolvable response, filtering the links by source-actor is
insensitive to appending nodes. -/
theorem filter_srcIsActor_append {st : D3Response} (hwf : linksWF st)
    (ext : List Node) (name : String) :
    st.links.filter (srcIsActor (st.nodes ++ ext) name) =
      st.links.filter (srcIsActor st.nodes name) := by
  refine List.filter_congr ?_
  intro l hl
  exact srcIsActor_stable (lt_of_map_label_eq_some (hwf l hl).2)

/-- One `addActor` step appends, to the links of `name`, exactly one link
targeting the movie index when the processed actor is `name`, and nothing
otherwise. -/
theorem addActor_actorLinks {st : D3Response} {movIdx : Nat} {a : String}
    (hwf : linksWF st) (name : String) :
    (actorLinks (addActor movIdx st a) name).map Link.target =
      (actorLinks st name).map Link.target ++ (if a = name then [movIdx] else []) := by
  rcases h : findActor a st.nodes with _ | i
  · have hnodes : (addActor movIdx st a).nodes = st.nodes ++ [⟨a, "actor"⟩] := by
      simp [addActor, h]
    have hlinks : (addActor movIdx st a).links =
        st.links ++ [⟨st.nodes.length, movIdx⟩] := by
      simp [addActor, h]
    rw [actorLinks, hnodes, hlinks, List.filter_append,
      filter_srcIsActor_append hwf, List.map_append, actorLinks]
    congr 1
    have hres : srcIsActor (st.nodes ++ [⟨a, "actor"⟩]) name ⟨st.nodes.length, movIdx⟩ =
        (a == name) := by
      rw [srcIsActor]
      show ((st.nodes ++ [Node.mk a "actor"])[st.nodes.length]?).any (isActorNamed name) = _
      rw [List.getElem?_concat_length]
      simp [isActorNamed]
    by_cases hname : a = name
    · rw [if_pos hname]
      rw [List.filter_cons, hres, if_pos (by simp [hname])]
      rfl
    · rw [if_neg hname]
      rw [List.filter_cons, hres, if_neg (by simp [hname])]
      rfl
  · have hnodes : (addActor movIdx st a).nodes = st.nodes := by
      simp [addActor, h]
    have hlinks : (addActor movIdx st a).links = st.links ++ [⟨i, movIdx⟩] := by
      simp [addActor, h]
    rw [actorLinks, hnodes, hlinks, List.filter_append, List.map_append, actorLinks]
    congr 1
    have hres : srcIsActor st.nodes name ⟨i, movIdx⟩ = (a == name) := by
      rw [srcIsActor]
      show (st.nodes[i]?).any (isActorNamed name) = _
      rw [findActor_eq_some h]
      simp [isActorNamed]
    by_cases hname : a = name
    · rw [if_pos hname]
      rw [List.filter_cons, hres, if_pos (by simp [hname])]
      rfl
    · rw [if_neg hname]
      rw [List.filter_cons, hres, if_neg (by simp [hname])]
      rfl

/-- The inner actor loop appends one link per occurrence of `name` in the
cast, all targeting the row's movie index. -/
theorem actorLoop_actorLinks {st : D3Response} {movIdx : Nat} (cast : List String)
    (hwf : linksWF st) (hmov : st.nodes[movIdx]?.map Node.label = some "movie")
    (name : String) :
    (actorLinks (cast.foldl (addActor movIdx) st) name).map Link.target =
      (actorLinks st name).map Link.target ++
        List.replicate (cast.count name) movIdx := by
  induction cast generalizing st with
  | nil => simp
  | cons a rest ih =>
    have hwf' := linksWF_addActor (a := a) hwf hmov
    have hmov' : (addActor movIdx st a).nodes[movIdx]?.map Node.label = some "movie" := by
      obtain ⟨e, he⟩ := addActor_nodes_extend movIdx st a
      rw [he, getElem?_append_of_lt (lt_of_map_label_eq_some hmov)]
      exact hmov
    rw [List.foldl_cons, ih hwf' hmov', addActor_actorLinks hwf name, List.append_assoc]
    congr 1
    by_cases hname : a = name
    · rw [if_pos hname]
      rw [show (a :: rest).count name = rest.count name + 1 by
        simp [List.count_cons, hname]]
      rw [List.replicate_succ]
      rfl
    · rw [if_neg hname]
      rw [show (a :: rest).count name = rest.count name by
        simp [List.count_cons, hname]]
      rfl

/-- Lemma: `addRow` appends one link per occurrence of `name` in the row's cast,
all targeting the index at which the row's movie node lands. -/
theorem addRow_actorLinks {st : D3Response} (r : GraphRow) (hwf : linksWF st)
    (name : String) :
    (actorLinks (addRow st r) name).map Link.target =
      (actorLinks st name).map Link.target ++
        List.replicate (r.cast.count name) st.nodes.length := by
  rw [addRow]
  have hlen : (st.nodes ++ [Node.mk r.movie "movie"]).length - 1 = st.nodes.length := by
    simp
  rw [hlen]
  set st1 : D3Response := { st with nodes := st.nodes ++ [Node.mk r.movie "movie"] } with hst1
  have hwf1 : linksWF st1 := by
    intro l hl
    obtain ⟨ht, hs⟩ := hwf l hl
    exact ⟨by rw [hst1, getElem?_append_of_lt (lt_of_map_label_eq_some ht)]; exact ht,
      by rw [hst1, getElem?_append_of_lt (lt_of_map_label_eq_some hs)]; exact hs⟩
  have hmov1 : st1.nodes[st.nodes.length]?.map Node.label = some "movie" := by
    rw [hst1]
    show ((st.nodes ++ [Node.mk r.movie "movie"])[st.nodes.length]?).map Node.label = _
    rw [List.getElem?_concat_length]
    rfl
  rw [actorLoop_actorLinks r.cast hwf1 hmov1 name]
  congr 1
  rw [actorLinks, actorLinks]
  show ((st.links.filter (srcIsActor (st.nodes ++ [Node.mk r.movie "movie"]) name)).map
    Link.target) = _
  rw [filter_srcIsActor_append hwf]

/-- The row fold appends, for each row in order and for each occurrence of
`name` in its cast, a link targeting that row's movie index. -/
theorem rowLoop_actorLinks (rows : List GraphRow) {st : D3Response}
    (hwf : linksWF st) (name : String) :
    (actorLinks (rows.foldl addRow st) name).map Link.target =
      (actorLinks st name).map Link.target ++ rowTargets st name rows := by
  induction rows generalizing st with
  | nil => simp [rowTargets]
  | cons r rest ih =>
    rw [List.foldl_cons, rowTargets, ih (linksWF_addRow r hwf),
      addRow_actorLinks r hwf, List.append_assoc]

/-- The movie node of a row sits at the pre-row node count, with the row's
title. -/
theorem addRow_movie_node (st : D3Response) (r : GraphRow) :
    (addRow st r).nodes[st.nodes.length]? = some ⟨r.movie, "movie"⟩ := by
  rw [addRow]
  have hlen : (st.nodes ++ [Node.mk r.movie "movie"]).length - 1 = st.nodes.length := by
    simp
  rw [hlen]
  obtain ⟨e, he⟩ := actorLoop_nodes_extend st.nodes.length r.cast
    { st with nodes := st.nodes ++ [Node.mk r.movie "movie"] }
  rw [he]
  show ((st.nodes ++ [Node.mk r.movie "movie"]) ++ e)[st.nodes.length]? = _
  rw [getElem?_append_of_lt (by simp), List.getElem?_concat_length]

/-- Rows that do not mention `name` contribute no targets. -/
theorem rowTargets_zero {name : String} (rows : List GraphRow) (st : D3Response)
    (h : ∀ r ∈ rows, r.cast.count name = 0) :
    rowTargets st name rows = [] := by
  induction rows generalizing st with
  | nil => rfl
  | cons r rest ih =>
    rw [rowTargets, h r (List.mem_cons_self r rest), ih (addRow st r)
      (fun r' hr' => h r' (List.mem_cons_of_mem r hr'))]
    rfl

/-- Lemma: `rowTargets` over a concatenation splits at the intermediate state. -/
theorem rowTargets_append (xs ys : List GraphRow) (st : D3Response) (name : String) :
    rowTargets st name (xs ++ ys) =
      rowTargets st name xs ++ rowTargets (xs.foldl addRow st) name ys := by
  induction xs generalizing st with
  | nil => simp [rowTargets]
  | cons x rest ih =>
    rw [List.cons_append, rowTargets, rowTargets, ih (addRow st x),
      List.foldl_cons, List.append_assoc]

/-- The actor-node count for one name is that name's multiplicity among the
actor titles. -/
theorem countP_isActorNamed (name : String) (ns : List Node) :
    ns.countP (isActorNamed name) = (actorTitles ns).count name := by
  induction ns with
  | nil => rfl
  | cons n tl ih =>
    rw [List.countP_cons]
    by_cases hl : n.label = "actor"
    · have : actorTitles (n :: tl) = n.title :: actorTitles tl := by
        simp [actorTitles, List.filter_cons, hl]
      rw [this, List.count_cons, ih]
      by_cases ht : n.title = name
      · simp [isActorNamed, hl, ht]
      · simp [isActorNamed, hl, ht]
    · have : actorTitles (n :: tl) = actorTitles tl := by
        simp [actorTitles, List.filter_cons, hl]
      rw [this, ih]
      simp [isActorNamed, hl]

/-- A name occurring anywhere in the casts gets exactly one actor node. -/
theorem buildGraph_actor_count_of_mem {rows : List GraphRow} {name : String}
    (h : name ∈ rows.flatMap GraphRow.cast) :
    (buildGraph rows).nodes.countP (isActorNamed name) = 1 := by
  obtain ⟨-, -, ht⟩ := rowLoop_counts rows ⟨[], []⟩
  rw [buildGraph, countP_isActorNamed, ht]
  have h0 : actorTitles (D3Response.mk [] []).nodes = [] := rfl
  rw [h0]
  have hnd : (dedupAppend [] (rows.flatMap GraphRow.cast)).Nodup :=
    dedupAppend_nodup _ List.nodup_nil
  have hmem : name ∈ dedupAppend [] (rows.flatMap GraphRow.cast) := by
    rw [← List.mem_toFinset, dedupAppend_toFinset]
    simp [h]
  exact List.count_eq_one_of_mem hnd hmem

/-- In a node list with a single actor node for `name`, the index of that
node is unique. -/
theorem actor_index_unique {ns : List Node} {name : String}
    (hc : ns.countP (isActorNamed name) = 1) :
    ∀ {j k : Nat}, ns[j]? = some ⟨name, "actor"⟩ → ns[k]? = some ⟨name, "actor"⟩ →
      j = k := by
  induction ns with
  | nil =>
    intro j k hj _
    simp at hj
  | cons n tl ih =>
    intro j k hj hk
    have hpos : ∀ {m : Nat}, tl[m]? = some (Node.mk name "actor") →
        0 < tl.countP (isActorNamed name) := by
      intro m hm
      obtain ⟨hlt, hget⟩ := List.getElem?_eq_some.mp hm
      refine List.countP_pos_iff.mpr
        ⟨Node.mk name "actor", ?_, by simp [isActorNamed]⟩
      exact hget ▸ List.getElem_mem hlt
    match j, k with
    | 0, 0 => rfl
    | 0, k + 1 =>
      exfalso
      have hn : n = Node.mk name "actor" := by simpa using hj
      have h1 : tl.countP (isActorNamed name) = 0 := by
        rw [List.countP_cons,
          if_pos (show isActorNamed name n = true by simp [hn, isActorNamed])] at hc
        omega
      have := hpos (by simpa using hk)
      omega
    | j + 1, 0 =>
      exfalso
      have hn : n = Node.mk name "actor" := by simpa using hk
      have h1 : tl.countP (isActorNamed name) = 0 := by
        rw [List.countP_cons,
          if_pos (show isActorNamed name n = true by simp [hn, isActorNamed])] at hc
        omega
      have := hpos (by simpa using hj)
      omega
    | j + 1, k + 1 =>
      have hj' : tl[j]? = some (Node.mk name "actor") := by simpa using hj
      have hk' : tl[k]? = some (Node.mk name "actor") := by simpa using hk
      have htl : tl.countP (isActorNamed name) = 1 := by
        rw [List.countP_cons] at hc
        have := hpos hj'
        omega
      exact congrArg (· + 1) (ih htl hj' hk')

/-- A node satisfying `isActorNamed` is the actor node of that name. -/
theorem isActorNamed_eq {name : String} {n : Node} (h : isActorNamed name n = true) :
    n = Node.mk name "actor" := by
  rw [isActorNamed, Bool.and_eq_true, beq_iff_eq, beq_iff_eq] at h
  exact node_eq_mk.mpr h

/-- A link selected by `srcIsActor` resolves to the actor node of the
name. -/
theorem srcIsActor_resolve {nodes : List Node} {name : String} {l : Link}
    (h : srcIsActor nodes name l = true) :
    nodes[l.source]? = some ⟨name, "actor"⟩ := by
  rw [srcIsActor] at h
  rcases ho : nodes[l.source]? with _ | n
  · rw [ho] at h
    cases h
  · rw [ho] at h
    have hn : isActorNamed name n = true := by simpa using h
    rw [isActorNamed_eq hn]

/-- Rows with no occurrence of a name contribute zero to its count. -/
theorem flatMap_count_zero {name : String} {rows : List GraphRow}
    (h : (rows.flatMap GraphRow.cast).count name = 0) :
    ∀ r ∈ rows, r.cast.count name = 0 := by
  intro r hr
  rw [List.count_flatMap] at h
  exact List.sum_eq_zero_iff.mp h _
    (List.mem_map_of_mem (List.count name ∘ GraphRow.cast) hr)

/-- Lemma: `rowTargets` has one entry per occurrence of the name in the casts. -/
theorem rowTargets_length (rows : List GraphRow) (st : D3Response) (name : String) :
    (rowTargets st name rows).length = (rows.flatMap GraphRow.cast).count name := by
  induction rows generalizing st with
  | nil => rfl
  | cons r rest ih =>
    rw [rowTargets, List.length_append, List.length_replicate,
      List.flatMap_cons, List.count_append, ih (addRow st r)]

/-! ### Claim C4 -/

/-- C4: when an actor name occurs in the cast lists of two different movies
(and only there), the graph projection creates exactly one actor node for
that name and exactly two links whose source is that node's index. -/
theorem repeated_actor_across_movies (pre mid post : List GraphRow)
    (r1 r2 : GraphRow) (name : String)
    (hr1 : r1.cast.count name = 1) (hr2 : r2.cast.count name = 1)
    (htotal : ((pre ++ r1 :: mid ++ r2 :: post).flatMap GraphRow.cast).count name = 2) :
    (buildGraph (pre ++ r1 :: mid ++ r2 :: post)).nodes.countP (isActorNamed name) = 1 ∧
      (actorLinks (buildGraph (pre ++ r1 :: mid ++ r2 :: post)) name).length = 2 ∧
      ∃ i, (buildGraph (pre ++ r1 :: mid ++ r2 :: post)).nodes[i]? =
          some ⟨name, "actor"⟩ ∧
        ∀ l ∈ actorLinks (buildGraph (pre ++ r1 :: mid ++ r2 :: post)) name,
          l.source = i := by
  have hmem : name ∈ (pre ++ r1 :: mid ++ r2 :: post).flatMap GraphRow.cast := by
    rw [← List.count_pos_iff, htotal]
    omega
  have hcount := buildGraph_actor_count_of_mem hmem
  have hwf0 : linksWF ⟨[], []⟩ := fun _ h => absurd h (List.not_mem_nil _)
  have hlinks := rowLoop_actorLinks (pre ++ r1 :: mid ++ r2 :: post) hwf0 name
  have hlen : (actorLinks (buildGraph (pre ++ r1 :: mid ++ r2 :: post)) name).length = 2 := by
    have h2 := congrArg List.length hlinks
    rw [List.length_map, List.length_append, List.length_map,
      rowTargets_length, htotal] at h2
    simpa [buildGraph, actorLinks] using h2
  refine ⟨hcount, hlen, ?_⟩
  obtain ⟨n, hnmem, hna⟩ := List.countP_pos_iff.mp (by omega : 0 <
    (buildGraph (pre ++ r1 :: mid ++ r2 :: post)).nodes.countP (isActorNamed name))
  obtain ⟨i, hilt, hie⟩ := List.getElem_of_mem hnmem
  have hi : (buildGraph (pre ++ r1 :: mid ++ r2 :: post)).nodes[i]? =
      some ⟨name, "actor"⟩ := by
    rw [List.getElem?_eq_getElem hilt, hie, isActorNamed_eq hna]
  refine ⟨i, hi, ?_⟩
  intro l hl
  have hsrc : srcIsActor (buildGraph (pre ++ r1 :: mid ++ r2 :: post)).nodes name l
      = true := (List.mem_filter.mp hl).2
  exact actor_index_unique hcount (srcIsActor_resolve hsrc) hi

/-- Witness for C4: the spec's Top Gun / Days of Thunder rows with actor
Tom Cruise. -/
theorem repeated_actor_across_movies_witness :
    (GraphRow.mk "Top Gun" ["Tom Cruise"]).cast.count "Tom Cruise" = 1 ∧
      (([] ++ GraphRow.mk "Top Gun" ["Tom Cruise"] :: [] ++
        GraphRow.mk "Days of Thunder" ["Tom Cruise"] :: []).flatMap
        GraphRow.cast).count "Tom Cruise" = 2 ∧
      ((buildGraph ([] ++ GraphRow.mk "Top Gun" ["Tom Cruise"] :: [] ++
          GraphRow.mk "Days of Thunder" ["Tom Cruise"] :: [])).nodes.countP
          (isActorNamed "Tom Cruise") = 1 ∧
        (actorLinks (buildGraph ([] ++ GraphRow.mk "Top Gun" ["Tom Cruise"] :: [] ++
          GraphRow.mk "Days of Thunder" ["Tom Cruise"] :: [])) "Tom Cruise").length = 2 ∧
        ∃ i, (buildGraph ([] ++ GraphRow.mk "Top Gun" ["Tom Cruise"] :: [] ++
            GraphRow.mk "Days of Thunder" ["Tom Cruise"] :: [])).nodes[i]? =
            some ⟨"Tom Cruise", "actor"⟩ ∧
          ∀ l ∈ actorLinks (buildGraph ([] ++ GraphRow.mk "Top Gun" ["Tom Cruise"] :: [] ++
            GraphRow.mk "Days of Thunder" ["Tom Cruise"] :: [])) "Tom Cruise",
            l.source = i) :=
  ⟨by decide, by decide,
    repeated_actor_across_movies [] [] [] (GraphRow.mk "Top Gun" ["Tom Cruise"])
      (GraphRow.mk "Days of Thunder" ["Tom Cruise"]) "Tom Cruise"
      (by decide) (by decide) (by decide)⟩

/-! ### Claim C10 -/

/-- C10: when a single row's cast contains the same name twice (and it
occurs nowhere else), the graph projection creates only one actor node for
that name but appends two links from that node, both to the same movie
node, namely that row's. -/
theorem duplicate_actor_within_row (pre post : List GraphRow) (r : GraphRow)
    (name : String) (hrow : r.cast.count name = 2)
    (htotal : ((pre ++ r :: post).flatMap GraphRow.cast).count name = 2) :
    (buildGraph (pre ++ r :: post)).nodes.countP (isActorNamed name) = 1 ∧
      ∃ t, (actorLinks (buildGraph (pre ++ r :: post)) name).map Link.target = [t, t] ∧
        (buildGraph (pre ++ r :: post)).nodes[t]? = some ⟨r.movie, "movie"⟩ := by
  have hmem : name ∈ (pre ++ r :: post).flatMap GraphRow.cast := by
    rw [← List.count_pos_iff, htotal]
    omega
  have hsplit : (pre.flatMap GraphRow.cast).count name +
      (r.cast.count name + (post.flatMap GraphRow.cast).count name) = 2 := by
    rw [← List.count_append, ← List.count_append, ← List.flatMap_cons,
      ← List.flatMap_append]
    exact htotal
  have hpre0 : (pre.flatMap GraphRow.cast).count name = 0 := by omega
  have hpost0 : (post.flatMap GraphRow.cast).count name = 0 := by omega
  have hwf0 : linksWF ⟨[], []⟩ := fun _ h => absurd h (List.not_mem_nil _)
  have hlinks := rowLoop_actorLinks (pre ++ r :: post) hwf0 name
  rw [rowTargets_append, rowTargets_zero pre _ (flatMap_count_zero hpre0),
    rowTargets, rowTargets_zero post _ (flatMap_count_zero hpost0), hrow] at hlinks
  refine ⟨buildGraph_actor_count_of_mem hmem,
    (pre.foldl addRow ⟨[], []⟩).nodes.length, ?_, ?_⟩
  · rw [buildGraph]
    rw [hlinks]
    rfl
  · have hG : buildGraph (pre ++ r :: post) =
        post.foldl addRow (addRow (pre.foldl addRow ⟨[], []⟩) r) := by
      rw [buildGraph, List.foldl_append, List.foldl_cons]
    rw [hG]
    obtain ⟨e, he⟩ := rowLoop_nodes_extend post (addRow (pre.foldl addRow ⟨[], []⟩) r)
    have hm := addRow_movie_node (pre.foldl addRow ⟨[], []⟩) r
    have hlt : (pre.foldl addRow ⟨[], []⟩).nodes.length <
        (addRow (pre.foldl addRow ⟨[], []⟩) r).nodes.length :=
      (List.getElem?_eq_some.mp hm).1
    rw [he, getElem?_append_of_lt hlt, hm]

/-- Witness for C10: one row whose cast lists the same actor twice. -/
theorem duplicate_actor_within_row_witness :
    (GraphRow.mk "Heat" ["Al", "Al"]).cast.count "Al" = 2 ∧
      ((([] : List GraphRow) ++ GraphRow.mk "Heat" ["Al", "Al"] :: []).flatMap
        GraphRow.cast).count "Al" = 2 ∧
      ((buildGraph (([] : List GraphRow) ++ GraphRow.mk "Heat" ["Al", "Al"] :: [])).nodes.countP
          (isActorNamed "Al") = 1 ∧
        ∃ t, (actorLinks (buildGraph (([] : List GraphRow) ++
            GraphRow.mk "Heat" ["Al", "Al"] :: [])) "Al").map Link.target = [t, t] ∧
          (buildGraph (([] : List GraphRow) ++
            GraphRow.mk "Heat" ["Al", "Al"] :: [])).nodes[t]? =
            some ⟨"Heat", "movie"⟩) :=
  ⟨by decide, by decide,
    duplicate_actor_within_row [] [] (GraphRow.mk "Heat" ["Al", "Al"]) "Al"
      (by decide) (by decide)⟩

/-! ### Detail projection facts (towards C6) -/

/-- A successful `movieRowStep` appends exactly one `Person` and sets the
title from the row. -/
theorem movieRowStep_cast {m m' : Movie} {record : Row}
    (h : movieRowStep m record = some m') :
    m'.cast.length = m.cast.length + 1 ∧ m'.title = getRecString record "title" := by
  rw [movieRowStep] at h
  rcases hr : rowGet record "role" with _ | v
  · rw [hr] at h
    obtain rfl := Option.some.inj h
    simp
  · cases v with
    | null =>
      rw [hr] at h
      obtain rfl := Option.some.inj h
      simp
    | int i =>
      rw [hr] at h
      obtain rfl := Option.some.inj h
      simp
    | str s =>
      rw [hr] at h
      obtain rfl := Option.some.inj h
      simp
    | list vs =>
      rw [hr] at h
      obtain ⟨roles, -, he⟩ := Option.map_eq_some.mp h
      rw [← he]
      simp

/-- A successful detail fold yields one cast entry per row, and the title
written by the last row. -/
theorem buildMovieDetail_foldl (records : List Row) (m0 m : Movie)
    (h : records.foldlM movieRowStep m0 = some m) :
    m.cast.length = m0.cast.length + records.length ∧
      m.title = records.foldl (fun _ r => getRecString r "title") m0.title := by
  induction records generalizing m0 with
  | nil =>
    obtain rfl : m0 = m := Option.some.inj h
    simp
  | cons r rest ih =>
    rw [List.foldlM_cons] at h
    obtain ⟨m1, h1, h2⟩ := Option.bind_eq_some.mp h
    obtain ⟨hc, htl⟩ := movieRowStep_cast h1
    obtain ⟨ihc, ihtl⟩ := ih m1 h2
    refine ⟨by rw [ihc, hc, List.length_cons]; omega, ?_⟩
    rw [ihtl, List.foldl_cons, htl]

/-- The repeated title overwrite amounts to taking the last row's title. -/
theorem foldl_title_eq_getLast (records : List Row) (t0 : String) :
    records.foldl (fun _ r => getRecString r "title") t0 =
      ((records.getLast?).map (fun r => getRecString r "title")).getD t0 := by
  induction records generalizing t0 with
  | nil => rfl
  | cons r rest ih =>
    rw [List.foldl_cons, ih, List.getLast?_cons]
    rcases hl : rest.getLast? with _ | x
    · rfl
    · rfl

/-! ### Claim C6 -/

/-- C6: every row given to the detail projection appends exactly one
`Person` to the cast (cast length = row count, in row order) and the title
is (re)set from each row, so it ends as the last row's; in particular the
single sentinel row of a zero-cast movie yields a `MovieDetail` whose cast
is exactly one entry with empty name and empty job. -/
theorem detail_projection_shape :
    (∀ (records : List Row) (m : Movie), buildMovieDetail records = some m →
        m.cast.length = records.length ∧
        m.title = ((records.getLast?).map (fun r => getRecString r "title")).getD "") ∧
      buildMovieDetail [sentinelRow] =
        some { title := "Apollo 13", cast := [⟨"", [], ""⟩] } := by
  constructor
  · intro records m h
    obtain ⟨hc, ht⟩ := buildMovieDetail_foldl records {} m h
    exact ⟨by simpa using hc, by rw [ht, foldl_title_eq_getLast]⟩
  · rfl

/-- Witness for C6: the sentinel row, via the universally quantified part
of the claim. -/
theorem detail_projection_shape_witness :
    ({ title := "Apollo 13", cast := [Person.mk "" [] ""] } : Movie).cast.length =
        [sentinelRow].length ∧
      ({ title := "Apollo 13", cast := [Person.mk "" [] ""] } : Movie).title =
        (([sentinelRow].getLast?).map (fun r => getRecString r "title")).getD "" :=
  detail_projection_shape.1 [sentinelRow]
    { title := "Apollo 13", cast := [Person.mk "" [] ""] } rfl

/-! ### Claim C5 -/

/-- C5 at the failing input: on query failure the search handler logs the
error and ends the request without a body, but the movie, vote and graph
handlers dereference the nil query result before their error check and
crash — contradicting the claim that all four log and never crash. -/
theorem handlers_on_query_failure :
    searchHandlerFunc (.error "connection refused") = .errorLogged ∧
      movieHandlerFunc (.error "connection refused") = .crash ∧
      voteInMovieHandlerFunc (.error "connection refused") = .crash ∧
      graphHandlerFunc (.error "connection refused") = .crash :=
  ⟨rfl, rfl, rfl, rfl⟩

/-! ### Claim C7 -/

/-- Counterexample to C7: a role column holding a list with a non-string
element is neither defaulted nor silently omitted — the unchecked `e.(string)`
assertion in `toStringSlice` panics, the row is lost, and the whole
response fails. -/
theorem row_decoder_not_total :
    movieRowStep {} badRoleRow = none ∧
      movieRowStep {} badRoleRow ≠
        some { title := "X", cast := [Person.mk "acted" [] "A"] } ∧
      movieHandlerFunc (.ok [badRoleRow]) = .crash := by
  refine ⟨rfl, ?_, rfl⟩
  intro h
  rw [show movieRowStep {} badRoleRow = none from rfl] at h
  cases h

/-- C7 amended: the row decoder substitutes the documented defaults for
absent, null and wrong-typed columns (integer → 0, string → empty), and a
role column that is not a list is silently omitted; but a role column that
is a list containing a non-string element is NOT recovered — the element
conversion panics and the row (hence the response) fails. -/
theorem row_decoder_defaults :
    (∀ (row : Row) (key : String), rowGet row key = none →
        getRecString row key = "" ∧ getRecInt row key = 0) ∧
      (∀ (row : Row) (key : String), rowGet row key = some .null →
        getRecString row key = "" ∧ getRecInt row key = 0) ∧
      (∀ (row : Row) (key : String) (i : Int), rowGet row key = some (.int i) →
        getRecString row key = "") ∧
      (∀ (row : Row) (key : String) (s : String), rowGet row key = some (.str s) →
        getRecInt row key = 0) ∧
      (∀ (row : Row) (key : String) (vs : List Value), rowGet row key = some (.list vs) →
        getRecString row key = "" ∧ getRecInt row key = 0) ∧
      (∀ (m : Movie) (record : Row),
        (∀ vs, rowGet record "role" ≠ some (.list vs)) →
        movieRowStep m record = some { m with
          title := getRecString record "title"
          cast := m.cast ++ [⟨getRecString record "job", [],
            getRecString record "name"⟩] }) ∧
      (∀ (m : Movie) (record : Row) (vs : List Value) (roles : List String),
        rowGet record "role" = some (.list vs) → toStringSlice vs = some roles →
        movieRowStep m record = some { m with
          title := getRecString record "title"
          cast := m.cast ++ [⟨getRecString record "job", roles,
            getRecString record "name"⟩] }) ∧
      (∀ (m : Movie) (record : Row) (vs : List Value),
        rowGet record "role" = some (.list vs) → toStringSlice vs = none →
        movieRowStep m record = none) := by
  refine ⟨?_, ?_, ?_, ?_, ?_, ?_, ?_, ?_⟩
  · intro row key h
    exact ⟨by rw [getRecString, h], by rw [getRecInt, h]⟩
  · intro row key h
    exact ⟨by rw [getRecString, h], by rw [getRecInt, h]⟩
  · intro row key i h
    rw [getRecString, h]
  · intro row key s h
    rw [getRecInt, h]
  · intro row key vs h
    exact ⟨by rw [getRecString, h], by rw [getRecInt, h]⟩
  · intro m record hnl
    rw [movieRowStep]
    rcases h : rowGet record "role" with _ | v
    · rfl
    · cases v with
      | null => rfl
      | int i => rfl
      | str s => rfl
      | list vs => exact absurd h (hnl vs)
  · intro m record vs roles h hs
    simp [movieRowStep, h, hs]
  · intro m record vs h hs
    simp [movieRowStep, h, hs]

/-- Witness for C7's amended claim: a missing column, a null column, and
the sentinel row's null role all default; the bad role list panics. -/
theorem row_decoder_defaults_witness :
    (getRecString [] "votes" = "" ∧ getRecInt [] "votes" = 0) ∧
      (getRecString [("a", Value.null)] "a" = "" ∧
        getRecInt [("a", Value.null)] "a" = 0) ∧
      movieRowStep {} sentinelRow = some { ({} : Movie) with
        title := getRecString sentinelRow "title"
        cast := ({} : Movie).cast ++ [⟨getRecString sentinelRow "job", [],
          getRecString sentinelRow "name"⟩] } ∧
      movieRowStep {} badRoleRow = none :=
  ⟨row_decoder_defaults.1 [] "votes" rfl,
    row_decoder_defaults.2.1 [("a", Value.null)] "a" rfl,
    row_decoder_defaults.2.2.2.2.2.1 {} sentinelRow
      (fun vs h => by
        rw [show rowGet sentinelRow "role" = some Value.null from rfl] at h
        exact Value.noConfusion (Option.some.inj h)),
    row_decoder_defaults.2.2.2.2.2.2.2 {} badRoleRow [Value.int 0] rfl rfl⟩

/-! ### Claim C8 -/

/-- C8: the row limit passed to the graph query is 50 when the limit
parameter is absent, 50 when the first value does not parse as an integer
(`/graph?limit=abc` behaves identically to `/graph`), and the parsed
integer otherwise. -/
theorem parseLimit_spec :
    parseLimit [] = 50 ∧
      (∀ (l : String) (rest : List String), goAtoi l = none →
        parseLimit (l :: rest) = 50) ∧
      (∀ (l : String) (rest : List String) (n : Int), goAtoi l = some n →
        parseLimit (l :: rest) = n) ∧
      parseLimit ["abc"] = parseLimit [] := by
  refine ⟨rfl, ?_, ?_, by decide⟩
  · intro l rest h
    rw [parseLimit, h]
  · intro l rest n h
    rw [parseLimit, h]

/-- Witness for C8: a non-numeric and a numeric limit value. -/
theorem parseLimit_spec_witness :
    (goAtoi "abc" = none ∧ parseLimit ["abc", "7"] = 50) ∧
      (goAtoi "25" = some 25 ∧ parseLimit ["25", "7"] = 25) :=
  ⟨⟨by decide, parseLimit_spec.2.1 "abc" ["7"] (by decide)⟩,
    ⟨by decide, parseLimit_spec.2.2.1 "25" ["7"] 25 (by decide)⟩⟩

/-! ### Claim C9 -/

/-- C9: on a successful vote query the handler writes a `VoteResult` whose
`updates` field is exactly the properties-set counter of the write summary;
a summary reporting 0 properties set yields `{"updates":0}` as a body, not
an error. -/
theorem vote_projection_updates :
    (∀ s : Summary, voteInMovieHandlerFunc (.ok s) = .body ⟨s.propertiesSet⟩) ∧
      voteInMovieHandlerFunc (.ok ⟨0⟩) = .body ⟨0⟩ :=
  ⟨fun _ => rfl, rfl⟩

end Movies
